import Mathlib

/-!
# Rack Layout Engine — verification of `src/rack_arranger.py` and the
  category splitter of `src/generate_rack_docs.py`

Shallow embedding conventions:
* Python `int` fields become `Int`; `float` fields (`weight`, `btu`) become `Rat`.
  The source only compares and copies these floats (it never does float arithmetic
  whose rounding could matter for the properties below), so `Rat` is an exact carrier.
* `fill_ratio = total_equipment_u / available_u` is a float compared against the
  literals `0.85` and `0.5`; for `available_u > 0` (the only case in which the
  source reaches the comparison with meaningful data) `t / a ≥ 0.85` holds exactly
  iff `17 * a ≤ 20 * t`, and `t / a ≥ 0.5` iff `a ≤ 2 * t`, which is how the
  dispatch is embedded.
* Python `//` is floor division (`Int.fdiv`); `int(x)` on a non-negative float
  product of small integers truncates like `Int.tdiv` on the exact quotient.
* Python's `sorted(..., key=..., reverse=True)` is a stable descending sort; it is
  embedded as `List.insertionSort` with the reflexive relation
  `fun a b => b.weight ≤ a.weight`, which has exactly that stability:
  an element is inserted before all later elements of equal key.
  (The key `x.weight or 0` equals `x.weight`, since `0.0 or 0 == 0`.)
* Mutation: the source assigns `item.position_u` in place on the caller's objects
  and appends those same objects to the layout; the embedding returns the
  post-assignment values, so the value of a caller's item after the call is the
  corresponding (positioned) layout entry.
-/

/-- `RackItemType` of `rack_arranger.py`. -/
inductive RackItemType where
  | EQUIPMENT
  | VENT_1U
  | VENT_2U
  | BLANK_1U
deriving DecidableEq, Repr

/-- `RackItem` dataclass of `rack_arranger.py` (defaults as in the source). -/
structure RackItem where
  item_type : RackItemType
  name : String
  brand : String := ""
  model : String := ""
  rack_units : Int := 1
  weight : Rat := 0
  btu : Rat := 0
  position_u : Int := 0
  front_image_url : Option String := none
  connections : Option (List (String × String)) := none
  quantity : Int := 1
  subsystem : String := ""
deriving DecidableEq, Repr

/-- `RackItem.is_equipment` property. -/
def RackItem.is_equipment (i : RackItem) : Bool :=
  match i.item_type with
  | RackItemType.EQUIPMENT => true
  | _ => false

/-- `RackLayout` dataclass. -/
structure RackLayout where
  rack_size_u : Int
  items : List RackItem := []
  project_name : String := ""
deriving DecidableEq, Repr

/-- Sum of the `rack_units` of a list of items. -/
def totalUnits (l : List RackItem) : Int :=
  (l.map (fun i => i.rack_units)).sum

/-- `RackLayout.total_equipment_u`. -/
def RackLayout.total_equipment_u (l : RackLayout) : Int :=
  totalUnits (l.items.filter fun i => i.is_equipment)

/-- `RackLayout.total_vent_u`. -/
def RackLayout.total_vent_u (l : RackLayout) : Int :=
  totalUnits (l.items.filter fun i => !i.is_equipment)

/-- `RackLayout.total_used_u`. -/
def RackLayout.total_used_u (l : RackLayout) : Int :=
  totalUnits l.items

/-- `RackLayout.remaining_u`. -/
def RackLayout.remaining_u (l : RackLayout) : Int :=
  l.rack_size_u - l.total_used_u

/-- `create_vent` of `rack_arranger.py`. -/
def create_vent (units : Int) : RackItem :=
  if units = 2 then
    { item_type := RackItemType.VENT_2U, name := "2U Vent Panel", rack_units := 2,
      weight := 0.5 }
  else
    { item_type := RackItemType.VENT_1U, name := "1U Vent Panel", rack_units := 1,
      weight := 0.25 }

/-- `create_blank` of `rack_arranger.py`. -/
def create_blank (units : Int) : RackItem :=
  { item_type := RackItemType.BLANK_1U, name := toString units ++ "U Blank Panel",
    rack_units := units, weight := 0.25 * units }

/-- The stable descending sort by weight of `arrange_rack`
(`sorted(equipment, key=lambda x: (x.weight or 0), reverse=True)`). -/
def sortByWeightDesc (equipment : List RackItem) : List RackItem :=
  List.insertionSort (fun a b => b.weight ≤ a.weight) equipment

/-- The `remaining_space <= 0 or num_equipment_items == 0` branch of `arrange_rack`:
place the sorted equipment sequentially, starting at `bottom_buffer_u + 1`. -/
def placeSeq : Int → List RackItem → List RackItem
  | _, [] => []
  | current_position, item :: rest =>
    { item with position_u := current_position }
      :: placeSeq (current_position + item.rack_units) rest

/-- The `while blanks_for_top > 0` / `while current_position <= rack_size_u` loops:
`k` one-unit blank panels placed consecutively from `current_position`. -/
def blankFill : Int → Nat → List RackItem
  | _, 0 => []
  | current_position, Nat.succ k =>
    { create_blank 1 with position_u := current_position } :: blankFill (current_position + 1) k

/-- `contigFrom c l`: the items of `l` are placed contiguously starting at slot `c`
(each item sits at the running cursor, which then advances by its `rack_units`).
Every placement loop of the source maintains exactly this shape. -/
def contigFrom : Int → List RackItem → Prop
  | _, [] => True
  | c, x :: xs => x.position_u = c ∧ contigFrom (c + x.rack_units) xs

theorem totalUnits_nil : totalUnits [] = 0 := rfl

theorem totalUnits_cons (x : RackItem) (l : List RackItem) :
    totalUnits (x :: l) = x.rack_units + totalUnits l := by
  simp [totalUnits]

theorem totalUnits_append (l₁ l₂ : List RackItem) :
    totalUnits (l₁ ++ l₂) = totalUnits l₁ + totalUnits l₂ := by
  simp [totalUnits]

theorem totalUnits_nonneg {l : List RackItem} (h : ∀ x ∈ l, 0 ≤ x.rack_units) :
    0 ≤ totalUnits l := by
  induction l with
  | nil => simp [totalUnits]
  | cons x xs ih =>
    rw [totalUnits_cons]
    have hx := h x (by simp)
    have hxs := ih (fun y hy => h y (by simp [hy]))
    omega

theorem totalUnits_length_le {l : List RackItem} (h : ∀ x ∈ l, 1 ≤ x.rack_units) :
    (l.length : Int) ≤ totalUnits l := by
  induction l with
  | nil => simp [totalUnits]
  | cons x xs ih =>
    rw [totalUnits_cons]
    have hx := h x (by simp)
    have hxs := ih (fun y hy => h y (by simp [hy]))
    simp only [List.length_cons]
    push_cast
    omega

theorem contigFrom_append {l₁ l₂ : List RackItem} {c : Int}
    (h₁ : contigFrom c l₁) (h₂ : contigFrom (c + totalUnits l₁) l₂) :
    contigFrom c (l₁ ++ l₂) := by
  induction l₁ generalizing c with
  | nil =>
    simpa [totalUnits] using h₂
  | cons x xs ih =>
    obtain ⟨hx, hxs⟩ := h₁
    refine ⟨hx, ih hxs ?_⟩
    have : c + totalUnits (x :: xs) = c + x.rack_units + totalUnits xs := by
      rw [totalUnits_cons]; ring
    rwa [this] at h₂

/-- Every item of a contiguous block placed from `c` sits at or above `c`. -/
theorem contigFrom_lower {l : List RackItem} {c : Int}
    (h : contigFrom c l) (hu : ∀ x ∈ l, 0 ≤ x.rack_units) :
    ∀ x ∈ l, c ≤ x.position_u := by
  induction l generalizing c with
  | nil => intro x hx; cases hx
  | cons y ys ih =>
    obtain ⟨hy, hys⟩ := h
    intro x hx
    rcases List.mem_cons.mp hx with rfl | hx'
    · omega
    · have hy0 : 0 ≤ y.rack_units := hu y (by simp)
      have := ih hys (fun z hz => hu z (by simp [hz])) x hx'
      omega

/-- Every item of a contiguous block ends at or below the block's end cursor. -/
theorem contigFrom_upper {l : List RackItem} {c : Int}
    (h : contigFrom c l) (hu : ∀ x ∈ l, 0 ≤ x.rack_units) :
    ∀ x ∈ l, x.position_u + x.rack_units ≤ c + totalUnits l := by
  induction l generalizing c with
  | nil => intro x hx; cases hx
  | cons y ys ih =>
    obtain ⟨hy, hys⟩ := h
    intro x hx
    have hrest : 0 ≤ totalUnits ys := totalUnits_nonneg (fun z hz => hu z (by simp [hz]))
    rcases List.mem_cons.mp hx with rfl | hx'
    · rw [totalUnits_cons]; omega
    · have := ih hys (fun z hz => hu z (by simp [hz])) x hx'
      rw [totalUnits_cons]
      have hy0 : 0 ≤ y.rack_units := hu y (by simp)
      omega

/-- A contiguous block of non-negative-height items is pairwise non-overlapping,
each earlier item ending at or before each later one begins. -/
theorem contigFrom_pairwise {l : List RackItem} {c : Int}
    (h : contigFrom c l) (hu : ∀ x ∈ l, 0 ≤ x.rack_units) :
    List.Pairwise (fun a b => a.position_u + a.rack_units ≤ b.position_u) l := by
  induction l generalizing c with
  | nil => exact List.Pairwise.nil
  | cons y ys ih =>
    obtain ⟨hy, hys⟩ := h
    refine List.Pairwise.cons ?_ (ih hys (fun z hz => hu z (by simp [hz])))
    intro b hb
    have := contigFrom_lower hys (fun z hz => hu z (by simp [hz])) b hb
    omega

/-! ## Tight strategy (`arrange_tight_rack`) -/

/-- First pass of `arrange_tight_rack`: positions after high-BTU items
(`for i, item in enumerate(equipment[:-1]): if (item.btu or 0) > 200: ...`). -/
def btuVentPositions (equipment : List RackItem) : List Nat :=
  equipment.dropLast.enum.filterMap fun p => if 200 < p.2.btu then some p.1 else none

/-- Second pass of `arrange_tight_rack`: fill in interval vents over
`for i in range(num_items - 1)`, carrying the vent-position set (kept as the
insertion-ordered list of its distinct members) and the `items_since_vent` counter. -/
def ventLoop (vents_to_add : Int) : List Nat → List Nat → Nat → List Nat
  | [], vent_positions, _ => vent_positions
  | i :: rest, vent_positions, items_since_vent =>
    let c1 := items_since_vent + 1
    let step :=
      if 3 ≤ c1 ∧ i ∉ vent_positions ∧ (vent_positions.length : Int) < vents_to_add then
        (vent_positions ++ [i], 0)
      else (vent_positions, c1)
    let c3 := if i ∈ step.1 then 0 else step.2
    ventLoop vents_to_add rest step.1 c3

/-- The build loop of `arrange_tight_rack`: place each item at the cursor and
append a 1U vent after item `i` whenever `i ∈ vent_positions`. -/
def tightBuild (vent_positions : List Nat) : Int → Nat → List RackItem → List RackItem
  | _, _, [] => []
  | current_position, i, item :: rest =>
    let placed := { item with position_u := current_position }
    let c1 := current_position + item.rack_units
    if i ∈ vent_positions then
      placed :: { create_vent 1 with position_u := c1 } :: tightBuild vent_positions (c1 + 1) (i + 1) rest
    else
      placed :: tightBuild vent_positions c1 (i + 1) rest

/-- `arrange_tight_rack` of `rack_arranger.py`. -/
def arrange_tight_rack (equipment : List RackItem) (remaining_space bottom_buffer_u : Int) :
    List RackItem :=
  let num_items := equipment.length
  let vent_interval : Int := 3
  let min_vents_needed := max 1 (Int.fdiv ((num_items : Int) - 1) vent_interval)
  let vents_to_add := max remaining_space min_vents_needed
  let vent_positions :=
    ventLoop vents_to_add (List.range (num_items - 1)) (btuVentPositions equipment) 0
  tightBuild vent_positions (bottom_buffer_u + 1) 0 equipment

/-! ## Moderate strategy (`arrange_moderate_rack`) -/

/-- The build loop of `arrange_moderate_rack`: place each item at the cursor and,
when it is not the last item and vents remain, a 1U vent after it.  Returns the
emitted items together with the final `current_position` cursor. -/
def modBuild : Int → Int → List RackItem → List RackItem × Int
  | current_position, _, [] => ([], current_position)
  | current_position, vents_to_use, item :: rest =>
    let placed := { item with position_u := current_position }
    let c1 := current_position + item.rack_units
    if rest ≠ [] ∧ 0 < vents_to_use then
      let r := modBuild (c1 + 1) (vents_to_use - 1) rest
      (placed :: { create_vent 1 with position_u := c1 } :: r.1, r.2)
    else
      let r := modBuild c1 vents_to_use rest
      (placed :: r.1, r.2)

/-- `arrange_moderate_rack` of `rack_arranger.py` (its `rack_size_u` parameter is
accepted and unused, as in the source). -/
def arrange_moderate_rack (equipment : List RackItem)
    (remaining_space bottom_buffer_u rack_size_u : Int) : List RackItem :=
  let num_items := equipment.length
  let vents_needed : Int := if 1 < num_items then (num_items : Int) - 1 else 0
  let vents_to_use := min vents_needed remaining_space
  let blanks_for_top := remaining_space - vents_to_use
  let r := modBuild (bottom_buffer_u + 1) vents_to_use equipment
  r.1 ++ blankFill r.2 blanks_for_top.toNat

/-! ## Sparse strategy (`arrange_sparse_rack`) -/

/-- The `while current_position < ideal_start` loop: `k` spacer units placed
consecutively, a 1U vent when the remaining gap is at most 2 and a 1U blank
otherwise. -/
def buildSpacers : Int → Nat → List RackItem
  | _, 0 => []
  | current_position, Nat.succ k =>
    let spacer := if (k : Int) + 1 ≤ 2 then create_vent 1 else create_blank 1
    { spacer with position_u := current_position } :: buildSpacers (current_position + 1) k

/-- The main loop of `arrange_sparse_rack`: fill up to each item's
`ideal_start = bottom_buffer_u + 1 + int(i * available_u / num_items)` with
spacers, place the item, and append a vent after a hot (`btu > 100`) non-last
item when the cursor is still below `rack_size_u`.  Returns the emitted items
and the final cursor. -/
def sparseBuild (bottom_buffer_u available_u rack_size_u : Int) (num_items : Nat) :
    Nat → Int → List RackItem → List RackItem × Int
  | _, current_position, [] => ([], current_position)
  | i, current_position, item :: rest =>
    let ideal_start := bottom_buffer_u + 1 + Int.tdiv ((i : Int) * available_u) (num_items : Int)
    let gap := (ideal_start - current_position).toNat
    let spacers := buildSpacers current_position gap
    let c1 := current_position + (gap : Int)
    let placed := { item with position_u := c1 }
    let c2 := c1 + item.rack_units
    if rest ≠ [] ∧ 100 < item.btu ∧ c2 < rack_size_u then
      let r := sparseBuild bottom_buffer_u available_u rack_size_u num_items (i + 1) (c2 + 1) rest
      (spacers ++ placed :: { create_vent 1 with position_u := c2 } :: r.1, r.2)
    else
      let r := sparseBuild bottom_buffer_u available_u rack_size_u num_items (i + 1) c2 rest
      (spacers ++ placed :: r.1, r.2)

/-- `arrange_sparse_rack` of `rack_arranger.py` (its `remaining_space` parameter is
accepted and unused, as in the source; the final `while current_position <=
rack_size_u` loop fills the top with 1U blanks). -/
def arrange_sparse_rack (equipment : List RackItem)
    (remaining_space bottom_buffer_u rack_size_u available_u : Int) : List RackItem :=
  let num_items := equipment.length
  if num_items = 0 then []
  else
    let r := sparseBuild bottom_buffer_u available_u rack_size_u num_items 0 (bottom_buffer_u + 1) equipment
    r.1 ++ blankFill r.2 (rack_size_u + 1 - r.2).toNat

/-! ## `arrange_rack` -/

/-- `arrange_rack` of `rack_arranger.py`.  `min_vent_spacing` is accepted and unused,
as in the source.  The fill-ratio dispatch embeds the float comparisons
`fill_ratio >= 0.85` and `fill_ratio >= 0.5` as the exact integer comparisons
`17 * available_u ≤ 20 * total_equipment_u` and
`available_u ≤ 2 * total_equipment_u` (see the header note). -/
def arrange_rack (equipment : List RackItem)
    (rack_size_u min_vent_spacing top_buffer_u bottom_buffer_u : Int) : RackLayout :=
  if equipment = [] then { rack_size_u := rack_size_u }
  else
    let sorted_equipment := sortByWeightDesc equipment
    let available_u := rack_size_u - top_buffer_u - bottom_buffer_u
    let total_equipment_u := totalUnits sorted_equipment
    let remaining_space := available_u - total_equipment_u
    let num_equipment_items := sorted_equipment.length
    if remaining_space ≤ 0 ∨ num_equipment_items = 0 then
      { rack_size_u := rack_size_u, items := placeSeq (bottom_buffer_u + 1) sorted_equipment }
    else if 17 * available_u ≤ 20 * total_equipment_u then
      { rack_size_u := rack_size_u,
        items := arrange_tight_rack sorted_equipment remaining_space bottom_buffer_u }
    else if available_u ≤ 2 * total_equipment_u then
      { rack_size_u := rack_size_u,
        items := arrange_moderate_rack sorted_equipment remaining_space bottom_buffer_u rack_size_u }
    else
      { rack_size_u := rack_size_u,
        items := arrange_sparse_rack sorted_equipment remaining_space bottom_buffer_u rack_size_u available_u }

/-! ## `expand_quantities` -/

/-- The copy `expand_quantities` builds for each unit of an item: the
`RackItem(...)` constructor call of the source, which passes `item_type`, `name`,
`brand`, `model`, `rack_units`, `weight`, `btu`, `front_image_url`, `connections`
and `quantity=1`, leaving `position_u` and `subsystem` at their defaults
(`0` and `""`). -/
def expandedCopy (item : RackItem) : RackItem :=
  { item_type := item.item_type, name := item.name, brand := item.brand,
    model := item.model, rack_units := item.rack_units, weight := item.weight,
    btu := item.btu, position_u := 0, front_image_url := item.front_image_url,
    connections := item.connections, quantity := 1, subsystem := "" }

/-- `expand_quantities` of `rack_arranger.py`.  `qty = item.quantity or 1` maps
`0` to `1` and leaves every other value (including negatives) unchanged;
`for i in range(qty)` then runs `max qty 0` times, which `Int.toNat` captures. -/
def expand_quantities : List RackItem → List RackItem
  | [] => []
  | item :: rest =>
    let qty := if item.quantity = 0 then 1 else item.quantity
    List.replicate qty.toNat (expandedCopy item) ++ expand_quantities rest

/-! ## Helper lemmas about placement -/

/-- Erase the one field the Placement Engine writes, for comparing items
before and after placement. -/
def clearPosition (i : RackItem) : RackItem :=
  { i with position_u := 0 }

theorem posUpdate_units (i : RackItem) (c : Int) :
    ({ i with position_u := c } : RackItem).rack_units = i.rack_units := rfl

theorem posUpdate_equip (i : RackItem) (c : Int) :
    ({ i with position_u := c } : RackItem).is_equipment = i.is_equipment := rfl

theorem posUpdate_weight (i : RackItem) (c : Int) :
    ({ i with position_u := c } : RackItem).weight = i.weight := rfl

theorem clearPosition_posUpdate (i : RackItem) (c : Int) :
    clearPosition { i with position_u := c } = clearPosition i := rfl

theorem clearPosition_weight (i : RackItem) : (clearPosition i).weight = i.weight := rfl

theorem create_vent_one_units : (create_vent 1).rack_units = 1 := by decide

theorem ventPos_units (c : Int) :
    ({ create_vent 1 with position_u := c } : RackItem).rack_units = 1 := rfl

theorem ventPos_equip (c : Int) :
    ({ create_vent 1 with position_u := c } : RackItem).is_equipment = false := rfl

theorem create_vent_one_equip : (create_vent 1).is_equipment = false := by decide

theorem create_blank_one_units : (create_blank 1).rack_units = 1 := by decide

theorem create_blank_one_equip : (create_blank 1).is_equipment = false := by decide

theorem blankFill_spec (k : Nat) : ∀ c : Int,
    contigFrom c (blankFill c k) ∧ totalUnits (blankFill c k) = (k : Int) ∧
    ∀ x ∈ blankFill c k, x.rack_units = 1 ∧ x.is_equipment = false := by
  induction k with
  | zero =>
    intro c
    exact ⟨trivial, by simp [blankFill, totalUnits], by simp [blankFill]⟩
  | succ n ih =>
    intro c
    obtain ⟨h1, h2, h3⟩ := ih (c + 1)
    have hu : ({ create_blank 1 with position_u := c } : RackItem).rack_units = 1 := rfl
    refine ⟨⟨rfl, by rw [hu]; exact h1⟩, ?_, ?_⟩
    · rw [blankFill, totalUnits_cons, hu, h2]; push_cast; ring
    · intro x hx
      rcases List.mem_cons.mp hx with rfl | hx'
      · exact ⟨rfl, rfl⟩
      · exact h3 x hx'

theorem buildSpacers_spec (k : Nat) : ∀ c : Int,
    contigFrom c (buildSpacers c k) ∧ totalUnits (buildSpacers c k) = (k : Int) ∧
    ∀ x ∈ buildSpacers c k, x.rack_units = 1 ∧ x.is_equipment = false := by
  induction k with
  | zero =>
    intro c
    exact ⟨trivial, by simp [buildSpacers, totalUnits], by simp [buildSpacers]⟩
  | succ n ih =>
    intro c
    obtain ⟨h1, h2, h3⟩ := ih (c + 1)
    have hspacer : ∀ s : RackItem, s = (if (n : Int) + 1 ≤ 2 then create_vent 1 else create_blank 1) →
        s.rack_units = 1 ∧ s.is_equipment = false := by
      intro s hs
      by_cases hn : (n : Int) + 1 ≤ 2
      · rw [hs, if_pos hn]; exact ⟨create_vent_one_units, create_vent_one_equip⟩
      · rw [hs, if_neg hn]; exact ⟨create_blank_one_units, create_blank_one_equip⟩
    obtain ⟨hsu, hse⟩ := hspacer _ rfl
    refine ⟨⟨rfl, ?_⟩, ?_, ?_⟩
    · show contigFrom (c + _) _
      rw [posUpdate_units, hsu]
      exact h1
    · rw [buildSpacers, totalUnits_cons, posUpdate_units, hsu, h2]; push_cast; ring
    · intro x hx
      rcases List.mem_cons.mp hx with rfl | hx'
      · rw [posUpdate_units, posUpdate_equip]; exact ⟨hsu, hse⟩
      · exact h3 x hx'

theorem placeSeq_spec (l : List RackItem) : ∀ c : Int,
    contigFrom c (placeSeq c l) ∧ totalUnits (placeSeq c l) = totalUnits l ∧
    ((∀ x ∈ l, 0 ≤ x.rack_units) → ∀ x ∈ placeSeq c l, 0 ≤ x.rack_units) ∧
    ((placeSeq c l).filter fun i => i.is_equipment).map clearPosition
      = (l.filter fun i => i.is_equipment).map clearPosition := by
  induction l with
  | nil =>
    intro c
    exact ⟨trivial, rfl, fun _ x hx => absurd hx (List.not_mem_nil x), rfl⟩
  | cons item rest ih =>
    intro c
    obtain ⟨h1, h2, h3, h4⟩ := ih (c + item.rack_units)
    refine ⟨⟨rfl, by rw [posUpdate_units]; exact h1⟩, ?_, ?_, ?_⟩
    · rw [placeSeq, totalUnits_cons, totalUnits_cons, posUpdate_units, h2]
    · intro hl x hx
      rcases List.mem_cons.mp hx with rfl | hx'
      · rw [posUpdate_units]; exact hl item (by simp)
      · exact h3 (fun y hy => hl y (by simp [hy])) x hx'
    · rw [placeSeq, List.filter_cons, List.filter_cons, posUpdate_equip]
      by_cases he : item.is_equipment
      · simp only [he, if_pos]
        rw [List.map_cons, List.map_cons, clearPosition_posUpdate, h4]
      · simp only [he, Bool.false_eq_true, if_neg, if_false]
        exact h4

theorem tightBuild_spec (S : List Nat) (l : List RackItem) : ∀ (c : Int) (i : Nat),
    contigFrom c (tightBuild S c i l) ∧
    ((∀ x ∈ l, 0 ≤ x.rack_units) → ∀ x ∈ tightBuild S c i l, 0 ≤ x.rack_units) ∧
    ((tightBuild S c i l).filter fun j => j.is_equipment).map clearPosition
      = (l.filter fun j => j.is_equipment).map clearPosition := by
  induction l with
  | nil =>
    intro c i
    exact ⟨trivial, fun _ x hx => absurd hx (List.not_mem_nil x), rfl⟩
  | cons item rest ih =>
    intro c i
    rw [tightBuild]
    by_cases hv : i ∈ S
    · simp only [if_pos hv]
      obtain ⟨h1, h2, h3⟩ := ih (c + item.rack_units + 1) (i + 1)
      refine ⟨⟨rfl, ?_⟩, ?_, ?_⟩
      · rw [posUpdate_units]
        refine ⟨rfl, ?_⟩
        rw [posUpdate_units, create_vent_one_units]
        exact h1
      · intro hl x hx
        rcases List.mem_cons.mp hx with rfl | hx'
        · rw [posUpdate_units]; exact hl item (by simp)
        rcases List.mem_cons.mp hx' with rfl | hx''
        · rw [posUpdate_units, create_vent_one_units]; decide
        · exact h2 (fun y hy => hl y (by simp [hy])) x hx''
      · simp only [List.filter_cons, posUpdate_equip, create_vent_one_equip, ventPos_equip,
          Bool.false_eq_true, if_false]
        by_cases he : item.is_equipment
        · simp only [he, if_pos]
          rw [List.map_cons, List.map_cons, clearPosition_posUpdate, h3]
        · simp only [he, Bool.false_eq_true, if_false]
          exact h3
    · simp only [if_neg hv]
      obtain ⟨h1, h2, h3⟩ := ih (c + item.rack_units) (i + 1)
      refine ⟨⟨rfl, by rw [posUpdate_units]; exact h1⟩, ?_, ?_⟩
      · intro hl x hx
        rcases List.mem_cons.mp hx with rfl | hx'
        · rw [posUpdate_units]; exact hl item (by simp)
        · exact h2 (fun y hy => hl y (by simp [hy])) x hx'
      · rw [List.filter_cons, List.filter_cons, posUpdate_equip]
        by_cases he : item.is_equipment
        · simp only [he, if_pos]
          rw [List.map_cons, List.map_cons, clearPosition_posUpdate, h3]
        · simp only [he, Bool.false_eq_true, if_false]
          exact h3

theorem modBuild_spec (l : List RackItem) : ∀ (c v : Int),
    contigFrom c (modBuild c v l).1 ∧
    (modBuild c v l).2 = c + totalUnits (modBuild c v l).1 ∧
    ((∀ x ∈ l, 0 ≤ x.rack_units) → ∀ x ∈ (modBuild c v l).1, 0 ≤ x.rack_units) ∧
    ((modBuild c v l).1.filter fun j => j.is_equipment).map clearPosition
      = (l.filter fun j => j.is_equipment).map clearPosition := by
  induction l with
  | nil =>
    intro c v
    refine ⟨trivial, by simp [modBuild, totalUnits], fun _ x hx => absurd hx (List.not_mem_nil x), rfl⟩
  | cons item rest ih =>
    intro c v
    rw [modBuild]
    by_cases hv : rest ≠ [] ∧ 0 < v
    · simp only [if_pos hv]
      obtain ⟨h1, h2, h3, h4⟩ := ih (c + item.rack_units + 1) (v - 1)
      refine ⟨⟨rfl, ?_⟩, ?_, ?_, ?_⟩
      · rw [posUpdate_units]
        refine ⟨rfl, ?_⟩
        rw [posUpdate_units, create_vent_one_units]
        exact h1
      · rw [h2, totalUnits_cons, totalUnits_cons, posUpdate_units, posUpdate_units,
          create_vent_one_units]
        ring
      · intro hl x hx
        rcases List.mem_cons.mp hx with rfl | hx'
        · rw [posUpdate_units]; exact hl item (by simp)
        rcases List.mem_cons.mp hx' with rfl | hx''
        · rw [posUpdate_units, create_vent_one_units]; decide
        · exact h3 (fun y hy => hl y (by simp [hy])) x hx''
      · simp only [List.filter_cons, posUpdate_equip, create_vent_one_equip, ventPos_equip,
          Bool.false_eq_true, if_false]
        by_cases he : item.is_equipment
        · simp only [he, if_pos]
          rw [List.map_cons, List.map_cons, clearPosition_posUpdate, h4]
        · simp only [he, Bool.false_eq_true, if_false]
          exact h4
    · simp only [if_neg hv]
      obtain ⟨h1, h2, h3, h4⟩ := ih (c + item.rack_units) v
      refine ⟨⟨rfl, by rw [posUpdate_units]; exact h1⟩, ?_, ?_, ?_⟩
      · rw [h2, totalUnits_cons, posUpdate_units]; ring
      · intro hl x hx
        rcases List.mem_cons.mp hx with rfl | hx'
        · rw [posUpdate_units]; exact hl item (by simp)
        · exact h3 (fun y hy => hl y (by simp [hy])) x hx'
      · rw [List.filter_cons, List.filter_cons, posUpdate_equip]
        by_cases he : item.is_equipment
        · simp only [he, if_pos]
          rw [List.map_cons, List.map_cons, clearPosition_posUpdate, h4]
        · simp only [he, Bool.false_eq_true, if_false]
          exact h4

/-- In the moderate build loop a vent is emitted for every unit of `vents_to_use`
whenever `0 ≤ vents_to_use ≤ count − 1`: the emitted units are the equipment
units plus exactly `vents_to_use`. -/
theorem modBuild_units_count (l : List RackItem) : ∀ (c v : Int), 0 ≤ v →
    v ≤ (l.length : Int) - 1 →
    totalUnits (modBuild c v l).1 = totalUnits l + v := by
  induction l with
  | nil =>
    intro c v h0 h1
    simp only [List.length_nil] at h1
    have : v = 0 := by omega
    simp [modBuild, totalUnits, this]
  | cons item rest ih =>
    intro c v h0 h1
    rw [modBuild]
    by_cases hv : rest ≠ [] ∧ 0 < v
    · simp only [if_pos hv]
      have hlen : 1 ≤ rest.length := by
        have := hv.1
        cases rest with
        | nil => simp at this
        | cons a b => simp
      rw [totalUnits_cons, posUpdate_units, totalUnits_cons, posUpdate_units,
        create_vent_one_units, ih (c + item.rack_units + 1) (v - 1) (by omega) ?hle,
        totalUnits_cons]
      · ring
      case hle =>
        simp only [List.length_cons] at h1
        push_cast at h1 ⊢
        omega
    · simp only [if_neg hv]
      have hv0 : v = 0 := by
        rcases not_and_or.mp hv with h | h
        · have : rest = [] := not_not.mp h
          subst this
          simp only [List.length_cons, List.length_nil] at h1
          push_cast at h1
          omega
        · omega
      subst hv0
      rw [totalUnits_cons, posUpdate_units, totalUnits_cons]
      cases rest with
      | nil => simp [modBuild, totalUnits]
      | cons a b =>
        rw [ih (c + item.rack_units) 0 le_rfl ?hle2]
        · ring
        case hle2 =>
          simp only [List.length_cons]
          push_cast
          omega

theorem sparseBuild_spec (b a R : Int) (n : Nat) (l : List RackItem) : ∀ (i : Nat) (c : Int),
    contigFrom c (sparseBuild b a R n i c l).1 ∧
    (sparseBuild b a R n i c l).2 = c + totalUnits (sparseBuild b a R n i c l).1 ∧
    ((∀ x ∈ l, 0 ≤ x.rack_units) → ∀ x ∈ (sparseBuild b a R n i c l).1, 0 ≤ x.rack_units) ∧
    ((sparseBuild b a R n i c l).1.filter fun j => j.is_equipment).map clearPosition
      = (l.filter fun j => j.is_equipment).map clearPosition := by
  induction l with
  | nil =>
    intro i c
    exact ⟨trivial, by simp [sparseBuild, totalUnits],
      fun _ x hx => absurd hx (List.not_mem_nil x), rfl⟩
  | cons item rest ih =>
    intro i c
    simp only [sparseBuild]
    generalize b + 1 + Int.tdiv ((i : Int) * a) (n : Int) = I
    obtain ⟨hs1, hs2, hs3⟩ := buildSpacers_spec (I - c).toNat c
    by_cases hc : rest ≠ [] ∧ 100 < item.btu ∧ c + ((I - c).toNat : Int) + item.rack_units < R
    · simp only [if_pos hc]
      obtain ⟨h1, h2, h3, h4⟩ := ih (i + 1) (c + ((I - c).toNat : Int) + item.rack_units + 1)
      have htail : contigFrom (c + totalUnits (buildSpacers c (I - c).toNat))
          ({ item with position_u := c + ((I - c).toNat : Int) }
            :: { create_vent 1 with position_u := c + ((I - c).toNat : Int) + item.rack_units }
            :: (sparseBuild b a R n (i + 1) (c + ((I - c).toNat : Int) + item.rack_units + 1) rest).1) := by
        rw [hs2]
        refine ⟨rfl, ?_⟩
        rw [posUpdate_units]
        refine ⟨rfl, ?_⟩
        rw [ventPos_units]
        exact h1
      refine ⟨contigFrom_append hs1 htail, ?_, ?_, ?_⟩
      · rw [h2, totalUnits_append, hs2, totalUnits_cons, totalUnits_cons, posUpdate_units,
          ventPos_units]
        ring
      · intro hl x hx
        rcases List.mem_append.mp hx with hx' | hx'
        · have := (hs3 x hx').1
          omega
        rcases List.mem_cons.mp hx' with rfl | hx''
        · rw [posUpdate_units]; exact hl item (by simp)
        rcases List.mem_cons.mp hx'' with rfl | hx'''
        · rw [ventPos_units]; decide
        · exact h3 (fun y hy => hl y (by simp [hy])) x hx'''
      · rw [List.filter_append, List.map_append]
        have hsf : (buildSpacers c (I - c).toNat).filter (fun j => j.is_equipment) = [] := by
          rw [List.filter_eq_nil]
          intro x hx
          simp [(hs3 x hx).2]
        rw [hsf]
        simp only [List.map_nil, List.nil_append, List.filter_cons, posUpdate_equip,
          create_vent_one_equip, ventPos_equip, Bool.false_eq_true, if_false]
        by_cases he : item.is_equipment
        · simp only [he, if_pos]
          rw [List.map_cons, List.map_cons, clearPosition_posUpdate, h4]
        · simp only [he, Bool.false_eq_true, if_false]
          exact h4
    · simp only [if_neg hc]
      obtain ⟨h1, h2, h3, h4⟩ := ih (i + 1) (c + ((I - c).toNat : Int) + item.rack_units)
      have htail : contigFrom (c + totalUnits (buildSpacers c (I - c).toNat))
          ({ item with position_u := c + ((I - c).toNat : Int) }
            :: (sparseBuild b a R n (i + 1) (c + ((I - c).toNat : Int) + item.rack_units) rest).1) := by
        rw [hs2]
        refine ⟨rfl, ?_⟩
        rw [posUpdate_units]
        exact h1
      refine ⟨contigFrom_append hs1 htail, ?_, ?_, ?_⟩
      · rw [h2, totalUnits_append, hs2, totalUnits_cons, posUpdate_units]
        ring
      · intro hl x hx
        rcases List.mem_append.mp hx with hx' | hx'
        · have := (hs3 x hx').1
          omega
        rcases List.mem_cons.mp hx' with rfl | hx''
        · rw [posUpdate_units]; exact hl item (by simp)
        · exact h3 (fun y hy => hl y (by simp [hy])) x hx''
      · rw [List.filter_append, List.map_append]
        have hsf : (buildSpacers c (I - c).toNat).filter (fun j => j.is_equipment) = [] := by
          rw [List.filter_eq_nil]
          intro x hx
          simp [(hs3 x hx).2]
        rw [hsf]
        simp only [List.map_nil, List.nil_append, List.filter_cons, posUpdate_equip]
        by_cases he : item.is_equipment
        · simp only [he, if_pos]
          rw [List.map_cons, List.map_cons, clearPosition_posUpdate, h4]
        · simp only [he, Bool.false_eq_true, if_false]
          exact h4

/-! ## The weight sort: permutation, order, stability -/

instance : IsTotal RackItem (fun a b => b.weight ≤ a.weight) :=
  ⟨fun a b => le_total b.weight a.weight⟩

instance : IsTrans RackItem (fun a b => b.weight ≤ a.weight) :=
  ⟨fun _ _ _ hab hbc => le_trans hbc hab⟩

theorem sortByWeightDesc_perm (l : List RackItem) : (sortByWeightDesc l).Perm l :=
  List.perm_insertionSort _ l

/-- The sorted list is weight-descending. -/
theorem sortByWeightDesc_sorted (l : List RackItem) :
    List.Pairwise (fun a b => b.weight ≤ a.weight) (sortByWeightDesc l) :=
  List.sorted_insertionSort _ l

/-- Inserting `x` into a list keeps all the other elements, in their order:
restricted to any one weight `w`, insertion prepends `x` iff `x.weight = w`.
This is the stability of the insertion step: `x` (the earliest input element)
lands before every equal-weight element. -/
theorem orderedInsert_filter_weight (x : RackItem) (w : Rat) (l : List RackItem) :
    (List.orderedInsert (fun a b => b.weight ≤ a.weight) x l).filter
        (fun a => decide (a.weight = w))
      = if x.weight = w then x :: l.filter (fun a => decide (a.weight = w))
        else l.filter (fun a => decide (a.weight = w)) := by
  induction l with
  | nil =>
    by_cases hx : x.weight = w
    · simp [List.orderedInsert, List.filter, hx]
    · simp [List.orderedInsert, List.filter, hx]
  | cons y ys ih =>
    rw [List.orderedInsert]
    by_cases hr : y.weight ≤ x.weight
    · rw [if_pos hr]
      by_cases hx : x.weight = w
      · simp [List.filter_cons, hx]
      · simp [List.filter_cons, hx]
    · rw [if_neg hr]
      by_cases hx : x.weight = w
      · have hy : ¬ y.weight = w := by
          intro hyw
          exact hr (le_of_eq (hx ▸ hyw))
        rw [if_pos hx, List.filter_cons, List.filter_cons]
        simp only [hy, decide_eq_true_eq, if_false, decide_eq_false_iff_not, if_neg,
          not_false_iff]
        rw [ih, if_pos hx]
      · rw [if_neg hx, List.filter_cons, List.filter_cons]
        by_cases hy : y.weight = w
        · simp only [hy, decide_eq_true_eq, if_pos]
          rw [ih, if_neg hx]
        · simp only [hy, decide_eq_true_eq, if_false]
          rw [ih, if_neg hx]

/-- Stability of the engine's weight sort: within each weight, the sorted list
keeps exactly the input's elements in the input's order. -/
theorem sortByWeightDesc_stable (l : List RackItem) (w : Rat) :
    (sortByWeightDesc l).filter (fun a => decide (a.weight = w))
      = l.filter (fun a => decide (a.weight = w)) := by
  induction l with
  | nil => rfl
  | cons x xs ih =>
    show (List.orderedInsert _ x (sortByWeightDesc xs)).filter _ = _
    rw [orderedInsert_filter_weight, List.filter_cons]
    by_cases hx : x.weight = w
    · simp only [hx, decide_eq_true_eq, if_pos]
      rw [ih]
    · simp only [hx, decide_eq_true_eq, if_false]
      rw [ih]

/-! ## Strategy-level invariants -/

theorem arrange_tight_rack_spec (l : List RackItem) (rs bb : Int) :
    contigFrom (bb + 1) (arrange_tight_rack l rs bb) ∧
    ((∀ x ∈ l, 0 ≤ x.rack_units) → ∀ x ∈ arrange_tight_rack l rs bb, 0 ≤ x.rack_units) ∧
    ((arrange_tight_rack l rs bb).filter fun j => j.is_equipment).map clearPosition
      = (l.filter fun j => j.is_equipment).map clearPosition := by
  simp only [arrange_tight_rack]
  exact tightBuild_spec _ l (bb + 1) 0

theorem arrange_moderate_rack_spec (l : List RackItem) (rs bb R : Int) :
    contigFrom (bb + 1) (arrange_moderate_rack l rs bb R) ∧
    ((∀ x ∈ l, 0 ≤ x.rack_units) → ∀ x ∈ arrange_moderate_rack l rs bb R, 0 ≤ x.rack_units) ∧
    ((arrange_moderate_rack l rs bb R).filter fun j => j.is_equipment).map clearPosition
      = (l.filter fun j => j.is_equipment).map clearPosition := by
  simp only [arrange_moderate_rack]
  set v := min (if 1 < l.length then (l.length : Int) - 1 else 0) rs with hv
  obtain ⟨h1, h2, h3, h4⟩ := modBuild_spec l (bb + 1) v
  obtain ⟨b1, b2, b3⟩ := blankFill_spec (rs - v).toNat (modBuild (bb + 1) v l).2
  refine ⟨contigFrom_append h1 (by rw [← h2]; exact b1), ?_, ?_⟩
  · intro hl x hx
    rcases List.mem_append.mp hx with hx' | hx'
    · exact h3 hl x hx'
    · have := (b3 x hx').1
      omega
  · rw [List.filter_append, List.map_append]
    have hbf : (blankFill (modBuild (bb + 1) v l).2 (rs - v).toNat).filter
        (fun j => j.is_equipment) = [] := by
      rw [List.filter_eq_nil]
      intro x hx
      simp [(b3 x hx).2]
    rw [hbf, List.map_nil, List.append_nil]
    exact h4

/-- With a non-negative spacer budget, the moderate strategy emits exactly
`remaining_space` filler units on top of the equipment. -/
theorem arrange_moderate_rack_units (l : List RackItem) (rs bb R : Int) (hrs : 0 ≤ rs) :
    totalUnits (arrange_moderate_rack l rs bb R) = totalUnits l + rs := by
  simp only [arrange_moderate_rack]
  set v := min (if 1 < l.length then (l.length : Int) - 1 else 0) rs with hv
  have hv0 : 0 ≤ v := by
    rw [hv]
    by_cases h : 1 < l.length
    · simp only [if_pos h]
      refine le_min ?_ hrs
      omega
    · simp only [if_neg h]
      exact le_min le_rfl hrs
  have hvrs : v ≤ rs := min_le_right _ _
  have hcount : totalUnits (modBuild (bb + 1) v l).1 = totalUnits l + v := by
    cases l with
    | nil =>
      have hveq : v = 0 := by
        rw [hv]
        simp [hrs]
      rw [hveq]
      simp [modBuild, totalUnits]
    | cons a as =>
      refine modBuild_units_count _ _ _ hv0 ?_
      rw [hv]
      by_cases h : 1 < (a :: as).length
      · refine le_trans (min_le_left _ _) ?_
        rw [if_pos h]
      · have := min_le_left (if 1 < (a :: as).length then ((a :: as).length : Int) - 1 else 0) rs
        rw [if_neg h] at this
        simp only [List.length_cons] at h ⊢
        omega
  rw [totalUnits_append, hcount, (blankFill_spec (rs - v).toNat (modBuild (bb + 1) v l).2).2.1]
  omega

theorem arrange_sparse_rack_spec (l : List RackItem) (rs bb R a : Int) :
    contigFrom (bb + 1) (arrange_sparse_rack l rs bb R a) ∧
    ((∀ x ∈ l, 0 ≤ x.rack_units) → ∀ x ∈ arrange_sparse_rack l rs bb R a, 0 ≤ x.rack_units) ∧
    (((arrange_sparse_rack l rs bb R a).filter fun j => j.is_equipment).map clearPosition
      = (l.filter fun j => j.is_equipment).map clearPosition) ∧
    (l ≠ [] → R + 1 ≤ bb + 1 + totalUnits (arrange_sparse_rack l rs bb R a)) := by
  by_cases hn : l.length = 0
  · have hl : l = [] := List.length_eq_zero.mp hn
    subst hl
    simp only [arrange_sparse_rack, if_pos]
    exact ⟨trivial, fun _ x hx => absurd hx (List.not_mem_nil x), rfl,
      fun h => absurd rfl h⟩
  · simp only [arrange_sparse_rack, if_neg hn]
    obtain ⟨h1, h2, h3, h4⟩ := sparseBuild_spec bb a R l.length l 0 (bb + 1)
    obtain ⟨b1, b2, b3⟩ :=
      blankFill_spec (R + 1 - (sparseBuild bb a R l.length 0 (bb + 1) l).2).toNat
        (sparseBuild bb a R l.length 0 (bb + 1) l).2
    refine ⟨contigFrom_append h1 (by rw [← h2]; exact b1), ?_, ?_, ?_⟩
    · intro hl x hx
      rcases List.mem_append.mp hx with hx' | hx'
      · exact h3 hl x hx'
      · have := (b3 x hx').1
        omega
    · rw [List.filter_append, List.map_append]
      have hbf : (blankFill (sparseBuild bb a R l.length 0 (bb + 1) l).2
          (R + 1 - (sparseBuild bb a R l.length 0 (bb + 1) l).2).toNat).filter
          (fun j => j.is_equipment) = [] := by
        rw [List.filter_eq_nil]
        intro x hx
        simp [(b3 x hx).2]
      rw [hbf, List.map_nil, List.append_nil]
      exact h4
    · intro _
      rw [totalUnits_append, b2]
      omega

/-! ## `arrange_rack`-level invariants and dispatch -/

theorem totalUnits_sort (l : List RackItem) :
    totalUnits (sortByWeightDesc l) = totalUnits l := by
  have h := ((sortByWeightDesc_perm l).map (fun i : RackItem => i.rack_units)).sum_eq
  simpa [totalUnits] using h

/-- Invariants common to every branch of `arrange_rack`: the layout is one
contiguous block starting at `bottom_buffer_u + 1`; filler panels are 1U/2U so
all heights stay non-negative when the equipment's are; and, up to the
`position_u` assignment, the equipment entries of the layout are exactly the
weight-sorted input. -/
theorem arrange_rack_spec (equipment : List RackItem) (R m t b : Int) :
    contigFrom (b + 1) (arrange_rack equipment R m t b).items ∧
    ((∀ x ∈ equipment, 0 ≤ x.rack_units) →
      ∀ x ∈ (arrange_rack equipment R m t b).items, 0 ≤ x.rack_units) ∧
    ((arrange_rack equipment R m t b).items.filter fun i => i.is_equipment).map clearPosition
      = ((sortByWeightDesc equipment).filter fun i => i.is_equipment).map clearPosition := by
  by_cases hemp : equipment = []
  · subst hemp
    have harr : arrange_rack [] R m t b = { rack_size_u := R } := by
      simp [arrange_rack]
    rw [harr]
    exact ⟨trivial, fun _ x hx => absurd hx (List.not_mem_nil x), rfl⟩
  · have hmem : ∀ x ∈ sortByWeightDesc equipment, x ∈ equipment :=
      fun x hx => (sortByWeightDesc_perm equipment).mem_iff.mp hx
    simp only [arrange_rack, if_neg hemp]
    split
    · obtain ⟨s1, _, s3, s4⟩ := placeSeq_spec (sortByWeightDesc equipment) (b + 1)
      exact ⟨s1, fun hl => s3 (fun x hx => hl x (hmem x hx)), s4⟩
    · split
      · obtain ⟨s1, s2, s3⟩ := arrange_tight_rack_spec (sortByWeightDesc equipment)
          (R - t - b - totalUnits (sortByWeightDesc equipment)) b
        exact ⟨s1, fun hl => s2 (fun x hx => hl x (hmem x hx)), s3⟩
      · split
        · obtain ⟨s1, s2, s3⟩ := arrange_moderate_rack_spec (sortByWeightDesc equipment)
            (R - t - b - totalUnits (sortByWeightDesc equipment)) b R
          exact ⟨s1, fun hl => s2 (fun x hx => hl x (hmem x hx)), s3⟩
        · obtain ⟨s1, s2, s3, _⟩ := arrange_sparse_rack_spec (sortByWeightDesc equipment)
            (R - t - b - totalUnits (sortByWeightDesc equipment)) b R (R - t - b)
          exact ⟨s1, fun hl => s2 (fun x hx => hl x (hmem x hx)), s3⟩

/-- When no spacer room remains, `arrange_rack` takes the
`remaining_space <= 0` branch and just places the sorted equipment. -/
theorem arrange_rack_eq_nospace (equipment : List RackItem) (R m t b : Int)
    (hemp : equipment ≠ [])
    (hrem : R - t - b - totalUnits equipment ≤ 0) :
    arrange_rack equipment R m t b =
      { rack_size_u := R, items := placeSeq (b + 1) (sortByWeightDesc equipment) } := by
  have hc : R - t - b - totalUnits (sortByWeightDesc equipment) ≤ 0 ∨
      (sortByWeightDesc equipment).length = 0 := by
    left
    rw [totalUnits_sort]
    omega
  simp only [arrange_rack, if_neg hemp, if_pos hc]

/-- Dispatch to the moderate strategy (`0.5 ≤ fill_ratio < 0.85`, spacer room left). -/
theorem arrange_rack_eq_moderate (equipment : List RackItem) (R m t b : Int)
    (hemp : equipment ≠ [])
    (hrem : 0 < R - t - b - totalUnits equipment)
    (h85 : 20 * totalUnits equipment < 17 * (R - t - b))
    (h50 : R - t - b ≤ 2 * totalUnits equipment) :
    arrange_rack equipment R m t b =
      { rack_size_u := R,
        items := arrange_moderate_rack (sortByWeightDesc equipment)
          (R - t - b - totalUnits equipment) b R } := by
  have hT := totalUnits_sort equipment
  have hc1 : ¬(R - t - b - totalUnits (sortByWeightDesc equipment) ≤ 0 ∨
      (sortByWeightDesc equipment).length = 0) := by
    push_neg
    constructor
    · rw [hT]; omega
    · intro h
      exact hemp (by
        have := (sortByWeightDesc_perm equipment).length_eq
        rw [h] at this
        exact List.length_eq_zero.mp this.symm)
  have hc2 : ¬(17 * (R - t - b) ≤ 20 * totalUnits (sortByWeightDesc equipment)) := by
    rw [hT]; omega
  have hc3 : R - t - b ≤ 2 * totalUnits (sortByWeightDesc equipment) := by
    rw [hT]; omega
  simp only [arrange_rack, if_neg hemp, if_neg hc1, if_neg hc2, if_pos hc3]
  rw [hT]

/-- Dispatch to the sparse strategy (`fill_ratio < 0.5`, spacer room left). -/
theorem arrange_rack_eq_sparse (equipment : List RackItem) (R m t b : Int)
    (hemp : equipment ≠ [])
    (hrem : 0 < R - t - b - totalUnits equipment)
    (h50 : 2 * totalUnits equipment < R - t - b) :
    arrange_rack equipment R m t b =
      { rack_size_u := R,
        items := arrange_sparse_rack (sortByWeightDesc equipment)
          (R - t - b - totalUnits equipment) b R (R - t - b) } := by
  have hT := totalUnits_sort equipment
  have hc1 : ¬(R - t - b - totalUnits (sortByWeightDesc equipment) ≤ 0 ∨
      (sortByWeightDesc equipment).length = 0) := by
    push_neg
    constructor
    · rw [hT]; omega
    · intro h
      exact hemp (by
        have := (sortByWeightDesc_perm equipment).length_eq
        rw [h] at this
        exact List.length_eq_zero.mp this.symm)
  have hc2 : ¬(17 * (R - t - b) ≤ 20 * totalUnits (sortByWeightDesc equipment)) := by
    rw [hT]; omega
  have hc3 : ¬(R - t - b ≤ 2 * totalUnits (sortByWeightDesc equipment)) := by
    rw [hT]; omega
  simp only [arrange_rack, if_neg hemp, if_neg hc1, if_neg hc2, if_neg hc3]
  rw [hT]

/-! ## Category Splitter (`split_into_av_and_network_racks` of `generate_rack_docs.py`) -/

/-- Python's substring test `needle in hay` on the underlying character lists. -/
def charsContain (needle : List Char) : List Char → Bool
  | [] => needle.isEmpty
  | c :: t => needle.isPrefixOf (c :: t) || charsContain needle t

/-- Python's `needle in hay` for strings. -/
def strContains (hay needle : String) : Bool :=
  charsContain needle.data hay.data

/-- Python's `str.lower()` on the ASCII strings the splitter handles, as a
per-character map (structural, unlike `String.toLower`'s position loop). -/
def lowerStr (s : String) : String :=
  String.mk (s.data.map Char.toLower)

/-- `network_brands` keyword list of the splitter. -/
def network_brands : List String :=
  ["ubiquiti", "pakedge", "araknis", "cisco", "netgear", "access networks"]

/-- `network_models` keyword list of the splitter. -/
def network_models : List String :=
  ["usw-", "udm-", "uap-", "an-", "ss42", "switch", "router", "gateway"]

/-- `av_brands` keyword list of the splitter. -/
def av_brands : List String :=
  ["savant", "lutron", "sonance", "james", "anthem", "marantz", "denon",
   "crown", "bowers", "b&k", "b & k", "sonos", "control4"]

/-- `av_models` keyword list of the splitter. -/
def av_models : List String :=
  ["pav-", "ssc-", "svr-", "rck-", "rmb-", "cli-", "pkg-", "hqp", "hqr",
   "amp", "receiver", "processor"]

/-- The `is_network` test of the splitter's keyword fallback. -/
def matchesNetworkKeywords (item : RackItem) : Bool :=
  network_brands.any (fun nb => strContains (lowerStr item.brand) nb) ||
  network_models.any (fun nm => strContains (lowerStr item.model) nm) ||
  network_models.any (fun nm => strContains (lowerStr item.name) nm)

/-- The `is_av` test of the splitter's keyword fallback. -/
def matchesAvKeywords (item : RackItem) : Bool :=
  av_brands.any (fun ab => strContains (lowerStr item.brand) ab) ||
  av_models.any (fun am => strContains (lowerStr item.model) am) ||
  av_models.any (fun am => strContains (lowerStr item.name) am)

/-- Per-item classification of the source splitter, laid out by its precedence:
(1) a subsystem tag containing `network`/`net` puts the item in the network
(secondary) rack; (2) otherwise a tag containing `av`/`audio`/`video` keeps it
in the AV (primary) rack; (3) otherwise keyword inference puts it in the network
rack only when `is_network and not is_av`; (4) everything else stays AV. -/
def codeAssignsNetwork (item : RackItem) : Bool :=
  let subsystem_lower := (lowerStr item.subsystem)
  if strContains subsystem_lower "network" || strContains subsystem_lower "net" then true
  else if strContains subsystem_lower "av" || strContains subsystem_lower "audio" ||
      strContains subsystem_lower "video" then false
  else matchesNetworkKeywords item && !(matchesAvKeywords item)

/-- `split_into_av_and_network_racks` of `generate_rack_docs.py`. -/
def split_into_av_and_network_racks : List RackItem → List RackItem × List RackItem
  | [] => ([], [])
  | item :: rest =>
    let r := split_into_av_and_network_racks rest
    let subsystem_lower := (lowerStr item.subsystem)
    if strContains subsystem_lower "network" || strContains subsystem_lower "net" then
      (r.1, item :: r.2)
    else if strContains subsystem_lower "av" || strContains subsystem_lower "audio" ||
        strContains subsystem_lower "video" then
      (item :: r.1, r.2)
    else if matchesNetworkKeywords item && !(matchesAvKeywords item) then
      (r.1, item :: r.2)
    else
      (item :: r.1, r.2)

/-- The classification precedence exactly as the CLAIM/spec words it (for
comparison with the source): (1) tag matching a secondary keyword → secondary;
(2) else tag matching a primary keyword → primary; (3) else brand/model/name
matching ANY secondary keyword → secondary (no primary-keyword override);
(4) else primary. -/
def claimedSecondary (item : RackItem) : Bool :=
  let subsystem_lower := (lowerStr item.subsystem)
  if strContains subsystem_lower "network" || strContains subsystem_lower "net" then true
  else if strContains subsystem_lower "av" || strContains subsystem_lower "audio" ||
      strContains subsystem_lower "video" then false
  else matchesNetworkKeywords item

/-! ## Generic list helper -/

/-- A pairwise fact about a filtered list lifts to the guarded pairwise fact on
the whole list (filtering keeps relative order). -/
theorem pairwise_of_pairwise_filter {α : Type} {p : α → Bool} {R : α → α → Prop} :
    ∀ {l : List α}, List.Pairwise R (l.filter p) →
      List.Pairwise (fun a b => p a = true → p b = true → R a b) l := by
  intro l
  induction l with
  | nil => intro _; exact List.Pairwise.nil
  | cons x xs ih =>
    intro h
    rw [List.filter_cons] at h
    by_cases hx : p x = true
    · rw [if_pos hx] at h
      obtain ⟨hhead, htail⟩ := List.pairwise_cons.mp h
      refine List.Pairwise.cons ?_ (ih htail)
      intro b hb _ hpb
      exact hhead b (List.mem_filter.mpr ⟨hb, hpb⟩)
    · rw [if_neg hx] at h
      refine List.Pairwise.cons ?_ (ih h)
      intro b _ hpx
      exact absurd hpx hx

/-! ## Concrete inputs for witnesses and counterexamples -/

/-- A zero-BTU equipment item of the given height and weight
(the shape the engine's callers feed it). -/
def mkEquip (nm : String) (u : Int) (w : Rat) : RackItem :=
  { item_type := RackItemType.EQUIPMENT, name := nm, rack_units := u, weight := w }

def c1input : List RackItem := [mkEquip "avr" 2 10, mkEquip "sw" 1 5]

def c2input : List RackItem := [mkEquip "x" 1 5, mkEquip "y" 2 7, mkEquip "z" 1 5]

/-! ## C1 — pairwise non-overlap -/

/-- C1: for every equipment list (heights non-negative, as the data model
requires) and every capacity and buffer configuration, the Layout returned by
`arrange_rack` has pairwise non-overlapping items: any two distinct entries A, B
(equipment or filler) satisfy `A.position_u + A.rack_units ≤ B.position_u` or
`B.position_u + B.rack_units ≤ A.position_u`, under every strategy and in the
no-remaining-space branch. -/
theorem c1_arrange_rack_no_overlap (equipment : List RackItem)
    (rack_size_u min_vent_spacing top_buffer_u bottom_buffer_u : Int)
    (hunits : ∀ e ∈ equipment, 0 ≤ e.rack_units) :
    List.Pairwise
      (fun A B => A.position_u + A.rack_units ≤ B.position_u ∨
        B.position_u + B.rack_units ≤ A.position_u)
      (arrange_rack equipment rack_size_u min_vent_spacing top_buffer_u bottom_buffer_u).items := by
  obtain ⟨h1, h2, _⟩ :=
    arrange_rack_spec equipment rack_size_u min_vent_spacing top_buffer_u bottom_buffer_u
  exact (contigFrom_pairwise h1 (h2 hunits)).imp (fun h => Or.inl h)

theorem c1_arrange_rack_no_overlap_witness :
    (∀ e ∈ c1input, 0 ≤ e.rack_units) ∧
    List.Pairwise
      (fun A B => A.position_u + A.rack_units ≤ B.position_u ∨
        B.position_u + B.rack_units ≤ A.position_u)
      (arrange_rack c1input 10 8 1 1).items :=
  ⟨by decide, c1_arrange_rack_no_overlap c1input 10 8 1 1 (by decide)⟩

/-! ## C2 — weight ordering and stable ties -/

/-- C2: in the Layout returned by `arrange_rack`, any two equipment entries A, B
with `A.weight > B.weight` satisfy `A.position_u ≤ B.position_u` (heavier at or
below lighter, filler ignored), and within each weight the equipment entries
keep the input order (Python's sort is stable): erasing the assigned positions,
the layout's equipment entries of weight `w` are exactly the input's items of
weight `w`, in input order. -/
theorem c2_arrange_rack_weight_order (equipment : List RackItem)
    (rack_size_u min_vent_spacing top_buffer_u bottom_buffer_u : Int)
    (hunits : ∀ e ∈ equipment, 0 ≤ e.rack_units)
    (hequip : ∀ e ∈ equipment, e.item_type = RackItemType.EQUIPMENT) :
    List.Pairwise
      (fun A B => A.is_equipment = true → B.is_equipment = true →
        ((B.weight < A.weight → A.position_u ≤ B.position_u) ∧
         (A.weight < B.weight → B.position_u ≤ A.position_u)))
      (arrange_rack equipment rack_size_u min_vent_spacing top_buffer_u bottom_buffer_u).items ∧
    ∀ w : Rat,
      (((arrange_rack equipment rack_size_u min_vent_spacing top_buffer_u bottom_buffer_u).items.filter
            fun i => i.is_equipment).filter (fun a => decide (a.weight = w))).map clearPosition
        = (equipment.filter (fun a => decide (a.weight = w))).map clearPosition := by
  obtain ⟨h1, h2, h3⟩ :=
    arrange_rack_spec equipment rack_size_u min_vent_spacing top_buffer_u bottom_buffer_u
  have hpos : List.Pairwise (fun A B : RackItem => A.position_u ≤ B.position_u)
      (arrange_rack equipment rack_size_u min_vent_spacing top_buffer_u bottom_buffer_u).items := by
    refine (contigFrom_pairwise h1 (h2 hunits)).imp_of_mem ?_
    intro A B hA _ hAB
    have := h2 hunits A hA
    omega
  have hfunw : ((fun i : RackItem => i.weight) ∘ clearPosition) = (fun i : RackItem => i.weight) :=
    funext fun _ => rfl
  have hwmap :
      (((arrange_rack equipment rack_size_u min_vent_spacing top_buffer_u bottom_buffer_u).items.filter
          fun i => i.is_equipment).map fun i => i.weight)
        = (((sortByWeightDesc equipment).filter fun i => i.is_equipment).map fun i => i.weight) := by
    have hcongr := congrArg (List.map (fun i : RackItem => i.weight)) h3
    rw [List.map_map, List.map_map, hfunw] at hcongr
    exact hcongr
  have hsortw : List.Pairwise (fun a b : RackItem => b.weight ≤ a.weight)
      ((sortByWeightDesc equipment).filter fun i => i.is_equipment) :=
    (sortByWeightDesc_sorted equipment).filter _
  have hLw : List.Pairwise (fun a b : RackItem => b.weight ≤ a.weight)
      ((arrange_rack equipment rack_size_u min_vent_spacing top_buffer_u bottom_buffer_u).items.filter
        fun i => i.is_equipment) := by
    have hm := (@List.pairwise_map RackItem Rat (fun i : RackItem => i.weight)
      (fun x y : Rat => y ≤ x)
      ((sortByWeightDesc equipment).filter fun i => i.is_equipment)).mpr hsortw
    rw [← hwmap] at hm
    exact List.pairwise_map.mp hm
  have hweights : List.Pairwise
      (fun a b : RackItem => a.is_equipment = true → b.is_equipment = true → b.weight ≤ a.weight)
      (arrange_rack equipment rack_size_u min_vent_spacing top_buffer_u bottom_buffer_u).items :=
    pairwise_of_pairwise_filter hLw
  constructor
  · refine (hpos.and hweights).imp ?_
    intro A B hAB hA hB
    exact ⟨fun _ => hAB.1, fun hlt => absurd hlt (not_lt.mpr (hAB.2 hA hB))⟩
  · intro w
    have hfunf : ((fun a : RackItem => decide (a.weight = w)) ∘ clearPosition)
        = (fun a : RackItem => decide (a.weight = w)) := funext fun _ => rfl
    have hstep := congrArg (List.filter (fun a : RackItem => decide (a.weight = w))) h3
    rw [List.filter_map, List.filter_map, hfunf] at hstep
    rw [hstep]
    have hall : ((sortByWeightDesc equipment).filter fun i => i.is_equipment)
        = sortByWeightDesc equipment := by
      rw [List.filter_eq_self]
      intro x hx
      have hx' := hequip x ((sortByWeightDesc_perm equipment).mem_iff.mp hx)
      simp [RackItem.is_equipment, hx']
    rw [hall, sortByWeightDesc_stable]

theorem c2_arrange_rack_weight_order_witness :
    (∀ e ∈ c2input, 0 ≤ e.rack_units) ∧
    (∀ e ∈ c2input, e.item_type = RackItemType.EQUIPMENT) ∧
    List.Pairwise
      (fun A B => A.is_equipment = true → B.is_equipment = true →
        ((B.weight < A.weight → A.position_u ≤ B.position_u) ∧
         (A.weight < B.weight → B.position_u ≤ A.position_u)))
      (arrange_rack c2input 12 8 1 1).items ∧
    (((arrange_rack c2input 12 8 1 1).items.filter fun i => i.is_equipment).filter
        (fun a => decide (a.weight = (5 : Rat)))).map clearPosition
      = (c2input.filter (fun a => decide (a.weight = (5 : Rat)))).map clearPosition :=
  ⟨by decide, by decide,
    (c2_arrange_rack_weight_order c2input 12 8 1 1 (by decide) (by decide)).1,
    (c2_arrange_rack_weight_order c2input 12 8 1 1 (by decide) (by decide)).2 5⟩

/-! ## C3 — capacity bound -/

/-- Thirteen one-unit items: total 13U in a 16U rack — no overflow
(`13 ≤ 14 = available_u`), `fill_ratio = 13/14 ≥ 0.85`, so the tight strategy runs. -/
def c3input : List RackItem := List.replicate 13 (mkEquip "srv" 1 5)

/-- C3 counterexample: with thirteen 1U items in a 16U rack (no overflow), the
tight strategy's vent budget `max(remaining_space, min_vents_needed) = max(1, 4)`
inserts 4 interval vents, and the layout occupies `17U > 16U`:
`total_used_u ≤ rack_size_u` fails even though the equipment fits. -/
theorem c3_counterexample :
    (arrange_rack c3input 16 8 1 1).total_equipment_u = 13 ∧
    (arrange_rack c3input 16 8 1 1).rack_size_u = 16 ∧
    (arrange_rack c3input 16 8 1 1).total_used_u = 17 ∧
    ¬((arrange_rack c3input 16 8 1 1).total_used_u
        ≤ (arrange_rack c3input 16 8 1 1).rack_size_u) := by decide

/-- C3 amended: when the moderate strategy is dispatched
(`0.5 ≤ fill_ratio < 0.85`, spacer room left, buffers non-negative), the layout
satisfies `total_used_u ≤ rack_size_u`; the tight and sparse strategies can
exceed capacity even without equipment overflow. -/
theorem c3_amended_moderate_capacity (equipment : List RackItem)
    (rack_size_u min_vent_spacing top_buffer_u bottom_buffer_u : Int)
    (hunits : ∀ e ∈ equipment, 1 ≤ e.rack_units)
    (ht : 0 ≤ top_buffer_u) (hb : 0 ≤ bottom_buffer_u)
    (h85 : 20 * totalUnits equipment < 17 * (rack_size_u - top_buffer_u - bottom_buffer_u))
    (h50 : rack_size_u - top_buffer_u - bottom_buffer_u ≤ 2 * totalUnits equipment)
    (hfit : totalUnits equipment < rack_size_u - top_buffer_u - bottom_buffer_u) :
    (arrange_rack equipment rack_size_u min_vent_spacing top_buffer_u bottom_buffer_u).total_used_u
      ≤ rack_size_u := by
  have hne : equipment ≠ [] := by
    intro h
    subst h
    simp only [totalUnits, List.map_nil, List.sum_nil] at h50 hfit
    omega
  rw [arrange_rack_eq_moderate equipment rack_size_u min_vent_spacing top_buffer_u bottom_buffer_u
    hne (by omega) h85 h50]
  have h := arrange_moderate_rack_units (sortByWeightDesc equipment)
    (rack_size_u - top_buffer_u - bottom_buffer_u - totalUnits equipment)
    bottom_buffer_u rack_size_u (by omega)
  rw [totalUnits_sort] at h
  show totalUnits (arrange_moderate_rack (sortByWeightDesc equipment)
    (rack_size_u - top_buffer_u - bottom_buffer_u - totalUnits equipment)
    bottom_buffer_u rack_size_u) ≤ rack_size_u
  rw [h]
  omega

/-- A moderate-fill input: 5U of equipment, 10U rack (`fill_ratio = 5/8`). -/
def c3winput : List RackItem := [mkEquip "p" 2 9, mkEquip "q" 2 7, mkEquip "r" 1 5]

theorem c3_amended_moderate_capacity_witness :
    (∀ e ∈ c3winput, 1 ≤ e.rack_units) ∧ ((0 : Int) ≤ 1) ∧ ((0 : Int) ≤ 1) ∧
    (20 * totalUnits c3winput < 17 * (10 - 1 - 1)) ∧
    ((10 - 1 - 1 : Int) ≤ 2 * totalUnits c3winput) ∧
    (totalUnits c3winput < 10 - 1 - 1) ∧
    (arrange_rack c3winput 10 8 1 1).total_used_u ≤ 10 :=
  ⟨by decide, by decide, by decide, by decide, by decide, by decide,
    c3_amended_moderate_capacity c3winput 10 8 1 1 (by decide) (by decide) (by decide)
      (by decide) (by decide) (by decide)⟩

/-! ## C4 — items stay inside the enclosure -/

/-- Nine 1U heavy items and one 10U light item in a 42U rack: sparse dispatch
(`fill_ratio = 19/40 < 0.5`); the light 10U item is sorted last, its ideal
start is slot 38, and it occupies 38–47, past the top of the enclosure. -/
def c4input : List RackItem :=
  List.replicate 9 (mkEquip "u" 1 10) ++ [mkEquip "big" 10 1]

/-- C4 counterexample: in the sparse strategy an item can extend past the top of
the rack (`position_u + rack_units - 1 = 47 > 42`) even without overflow
(equipment totals 19U of 40 available). -/
theorem c4_counterexample :
    (arrange_rack c4input 42 8 1 1).total_equipment_u = 19 ∧
    ((arrange_rack c4input 42 8 1 1).items.all
      fun x => decide (x.position_u + x.rack_units - 1 ≤ 42)) = false := by decide

/-- C4 amended: under the moderate strategy every item of the returned layout
satisfies `position_u + rack_units - 1 ≤ rack_size_u`; in the tight and sparse
strategies and in the overflowing no-remaining-space branch, items can extend
past the top. -/
theorem c4_amended_moderate_no_overhang (equipment : List RackItem)
    (rack_size_u min_vent_spacing top_buffer_u bottom_buffer_u : Int)
    (hunits : ∀ e ∈ equipment, 1 ≤ e.rack_units)
    (ht : 0 ≤ top_buffer_u)
    (h85 : 20 * totalUnits equipment < 17 * (rack_size_u - top_buffer_u - bottom_buffer_u))
    (h50 : rack_size_u - top_buffer_u - bottom_buffer_u ≤ 2 * totalUnits equipment)
    (hfit : totalUnits equipment < rack_size_u - top_buffer_u - bottom_buffer_u) :
    ∀ x ∈ (arrange_rack equipment rack_size_u min_vent_spacing top_buffer_u
        bottom_buffer_u).items,
      x.position_u + x.rack_units - 1 ≤ rack_size_u := by
  have hne : equipment ≠ [] := by
    intro h
    subst h
    simp only [totalUnits, List.map_nil, List.sum_nil] at h50 hfit
    omega
  rw [arrange_rack_eq_moderate equipment rack_size_u min_vent_spacing top_buffer_u bottom_buffer_u
    hne (by omega) h85 h50]
  intro x hx
  obtain ⟨s1, s2, _⟩ := arrange_moderate_rack_spec (sortByWeightDesc equipment)
    (rack_size_u - top_buffer_u - bottom_buffer_u - totalUnits equipment)
    bottom_buffer_u rack_size_u
  have hx' : x ∈ arrange_moderate_rack (sortByWeightDesc equipment)
      (rack_size_u - top_buffer_u - bottom_buffer_u - totalUnits equipment)
      bottom_buffer_u rack_size_u := hx
  have hsu : ∀ y ∈ sortByWeightDesc equipment, 0 ≤ y.rack_units := by
    intro y hy
    have := hunits y ((sortByWeightDesc_perm equipment).mem_iff.mp hy)
    omega
  have hup := contigFrom_upper s1 (s2 hsu) x hx'
  have htot := arrange_moderate_rack_units (sortByWeightDesc equipment)
    (rack_size_u - top_buffer_u - bottom_buffer_u - totalUnits equipment)
    bottom_buffer_u rack_size_u (by omega)
  rw [htot, totalUnits_sort] at hup
  omega

/-- Another moderate-fill input: 6U of equipment in a 12U rack
(`fill_ratio = 6/10`). -/
def c4winput : List RackItem := [mkEquip "p" 3 9, mkEquip "q" 2 7, mkEquip "r" 1 5]

theorem c4_amended_moderate_no_overhang_witness :
    (∀ e ∈ c4winput, 1 ≤ e.rack_units) ∧ ((0 : Int) ≤ 1) ∧
    (20 * totalUnits c4winput < 17 * (12 - 1 - 1)) ∧
    ((12 - 1 - 1 : Int) ≤ 2 * totalUnits c4winput) ∧
    (totalUnits c4winput < 12 - 1 - 1) ∧
    ∀ x ∈ (arrange_rack c4winput 12 8 1 1).items, x.position_u + x.rack_units - 1 ≤ 12 :=
  ⟨by decide, by decide, by decide, by decide, by decide,
    c4_amended_moderate_no_overhang c4winput 12 8 1 1 (by decide) (by decide) (by decide)
      (by decide) (by decide)⟩

/-! ## C5 — no capacity validation -/

def c5item : RackItem := mkEquip "host" 2 15

/-- C5 counterexample: called with `rack_size_u = 0`, `arrange_rack` does not
refuse to run: it proceeds through the no-remaining-space branch and returns a
layout with the item placed at slot 2 — there is no validation of
`capacityUnits > 0` anywhere in the engine. -/
theorem c5_counterexample :
    (arrange_rack [c5item] 0 8 1 1).items = [{ c5item with position_u := 2 }] ∧
    (arrange_rack [c5item] 0 8 1 1).items ≠ [] := by decide

/-- C5 amended: `arrange_rack` performs no validation of `rack_size_u`: with
`rack_size_u ≤ 0` (and non-negative buffers and item heights) it proceeds and
returns the no-remaining-space layout, the sorted equipment placed sequentially
from `bottom_buffer_u + 1`; `capacityUnits > 0` is an unchecked assumption, not
a checked precondition. -/
theorem c5_amended_no_validation (equipment : List RackItem)
    (rack_size_u min_vent_spacing top_buffer_u bottom_buffer_u : Int)
    (hR : rack_size_u ≤ 0) (ht : 0 ≤ top_buffer_u) (hb : 0 ≤ bottom_buffer_u)
    (hunits : ∀ e ∈ equipment, 0 ≤ e.rack_units) :
    arrange_rack equipment rack_size_u min_vent_spacing top_buffer_u bottom_buffer_u =
      { rack_size_u := rack_size_u,
        items := placeSeq (bottom_buffer_u + 1) (sortByWeightDesc equipment) } := by
  by_cases hemp : equipment = []
  · subst hemp
    simp [arrange_rack, sortByWeightDesc, List.insertionSort, placeSeq]
  · have hT0 : 0 ≤ totalUnits equipment := totalUnits_nonneg hunits
    exact arrange_rack_eq_nospace equipment rack_size_u min_vent_spacing top_buffer_u
      bottom_buffer_u hemp (by omega)

def c5witem : RackItem := mkEquip "amp" 3 20

theorem c5_amended_no_validation_witness :
    ((-3 : Int) ≤ 0) ∧ ((0 : Int) ≤ 1) ∧ ((0 : Int) ≤ 1) ∧
    (∀ e ∈ [c5witem], 0 ≤ e.rack_units) ∧
    arrange_rack [c5witem] (-3) 8 1 1 =
      { rack_size_u := -3, items := placeSeq 2 (sortByWeightDesc [c5witem]) } :=
  ⟨by decide, by decide, by decide, by decide,
    c5_amended_no_validation [c5witem] (-3) 8 1 1 (by decide) (by decide) (by decide)
      (by decide)⟩

/-! ## C6 — splitter precedence -/

/-- Untagged item whose brand matches a network keyword (`araknis`) and whose
model matches an AV keyword (`amp`). -/
def c6item : RackItem :=
  { item_type := RackItemType.EQUIPMENT, name := "rack amp", brand := "Araknis",
    model := "amp", rack_units := 1, weight := 5 }

/-- C6 counterexample: the claim's step (3) assigns this untagged item to the
secondary (network) group because its brand matches a secondary keyword; the
source instead requires `is_network and not is_av` and, since the model also
matches a primary keyword, files it under the primary (AV) group. -/
theorem c6_counterexample :
    claimedSecondary c6item = true ∧
    split_into_av_and_network_racks [c6item] = ([c6item], []) := by decide

/-- C6 amended: classification follows the precedence (1) tag matching a
secondary keyword → secondary; (2) else tag matching a primary keyword →
primary; (3) else brand/model/name matching a secondary keyword AND matching no
primary keyword → secondary; (4) else (including when both keyword families
match) → primary.  The splitter partitions its input elementwise by exactly
this rule, preserving order. -/
theorem c6_amended_split_precedence (l : List RackItem) :
    split_into_av_and_network_racks l =
      (l.filter fun i => !(codeAssignsNetwork i), l.filter fun i => codeAssignsNetwork i) := by
  induction l with
  | nil => rfl
  | cons item rest ih =>
    simp only [split_into_av_and_network_racks, ih, List.filter_cons]
    by_cases h1 : (strContains (lowerStr item.subsystem) "network" ||
        strContains (lowerStr item.subsystem) "net") = true
    · have hc : codeAssignsNetwork item = true := by
        unfold codeAssignsNetwork
        rw [if_pos h1]
      rw [if_pos h1, hc]
      simp
    · rw [if_neg h1]
      by_cases h2 : (strContains (lowerStr item.subsystem) "av" ||
          strContains (lowerStr item.subsystem) "audio" ||
          strContains (lowerStr item.subsystem) "video") = true
      · have hc : codeAssignsNetwork item = false := by
          unfold codeAssignsNetwork
          rw [if_neg h1, if_pos h2]
        rw [if_pos h2, hc]
        simp
      · have hc : codeAssignsNetwork item
            = (matchesNetworkKeywords item && !(matchesAvKeywords item)) := by
          unfold codeAssignsNetwork
          rw [if_neg h1, if_neg h2]
        rw [if_neg h2]
        by_cases h3 : (matchesNetworkKeywords item && !(matchesAvKeywords item)) = true
        · rw [if_pos h3, hc, h3]
          simp
        · have h3' : (matchesNetworkKeywords item && !(matchesAvKeywords item)) = false :=
            Bool.eq_false_iff.mpr h3
          rw [if_neg h3, hc, h3']
          simp

/-! ## C7 — quantity expansion counts -/

theorem expand_quantities_mem (l : List RackItem) :
    ∀ x ∈ expand_quantities l, x.quantity = 1 := by
  induction l with
  | nil => intro x hx; cases hx
  | cons item rest ih =>
    intro x hx
    rw [expand_quantities] at hx
    rcases List.mem_append.mp hx with hx' | hx'
    · rw [List.eq_of_mem_replicate hx']
      rfl
    · exact ih x hx'

theorem expand_quantities_length (l : List RackItem) :
    (expand_quantities l).length
      = (l.map fun item => (if item.quantity = 0 then 1 else item.quantity).toNat).sum := by
  induction l with
  | nil => rfl
  | cons item rest ih =>
    rw [expand_quantities, List.length_append, List.length_replicate, List.map_cons,
      List.sum_cons, ih]

def c7item : RackItem := { mkEquip "neg" 1 1 with quantity := -1 }

/-- C7 counterexample: the claim says quantity ≤ 0 is treated as 1 and yields
one copy; but `qty = item.quantity or 1` leaves a negative quantity unchanged
(only `0` is falsy) and `range(-1)` is empty, so a quantity −1 item yields no
copies at all. -/
theorem c7_counterexample :
    expand_quantities [c7item] = [] ∧ c7item.quantity ≤ 0 := by decide

/-- C7 amended: every expanded item has `quantity = 1`, and each input item with
quantity `q` yields exactly `q` copies when `q ≥ 1`, exactly one copy when
`q = 0`, and no copies when `q < 0` (so `(if q = 0 then 1 else q).toNat` copies
in all cases; there are no failure conditions). -/
theorem c7_amended_expand_quantities (l : List RackItem) :
    ((expand_quantities l).all fun x => x.quantity == 1) = true ∧
    (expand_quantities l).length
      = (l.map fun item => (if item.quantity = 0 then 1 else item.quantity).toNat).sum :=
  ⟨List.all_eq_true.mpr fun x hx => by rw [expand_quantities_mem l x hx]; rfl,
    expand_quantities_length l⟩

/-! ## C8 — the expansion round-trip drops `subsystem` -/

/-- An enriched item the pipeline would produce: tagged `subsystem = "Network"`
by the database lookup, with quantity 3, expanded just before the splitter runs. -/
def c8item : RackItem :=
  { item_type := RackItemType.EQUIPMENT, name := "switch", brand := "Araknis",
    model := "AN-110", rack_units := 1, weight := 5, quantity := 3,
    subsystem := "Network" }

/-- C8 failing input: expanding a quantity-3 item tagged `subsystem = "Network"`
yields three copies whose `subsystem` is `""` — the `RackItem(...)` constructor
call in `expand_quantities` omits `subsystem` (and `position_u`), so the copies
are NOT structurally identical to the input outside `quantity`, contradicting
both the claim and the source's own intent (the pipeline reads `subsystem`
right after expansion to split racks, and the code comments call the copies
"a copy for each quantity"). -/
theorem c8_subsystem_dropped :
    expand_quantities [c8item] = List.replicate 3 (expandedCopy c8item) ∧
    c8item.subsystem = "Network" ∧
    ((expand_quantities [c8item]).all fun x => x.subsystem == "") = true := by decide

/-! ## C9 — the engine mutates its input -/

def c9item : RackItem := mkEquip "host" 2 15

/-- C9 counterexample: the source writes `item.position_u = current_position` on
the caller's own objects and the returned layout aliases them (see the header
note on mutation).  After `arrange_rack [c9item] 42 ...`, the caller's item —
the layout's unique equipment entry — has `position_u = 2`, no longer its
pre-call value: the input is mutated and the layout shares state with it. -/
theorem c9_counterexample :
    ((arrange_rack [c9item] 42 8 1 1).items.filter fun i => i.is_equipment)
      = [{ c9item with position_u := 2 }] ∧
    ({ c9item with position_u := 2 } : RackItem) ≠ c9item := by decide

/-- C9 amended: `arrange_rack` assigns `position_u` in place on the caller's
items (the returned layout aliases them), and that is the only field it
touches: erasing `position_u`, the layout's equipment entries are a
permutation of the input items. -/
theorem c9_amended_mutates_only_position (equipment : List RackItem)
    (rack_size_u min_vent_spacing top_buffer_u bottom_buffer_u : Int)
    (hequip : ∀ e ∈ equipment, e.item_type = RackItemType.EQUIPMENT) :
    (((arrange_rack equipment rack_size_u min_vent_spacing top_buffer_u
        bottom_buffer_u).items.filter fun i => i.is_equipment).map clearPosition).Perm
      (equipment.map clearPosition) := by
  obtain ⟨_, _, h3⟩ :=
    arrange_rack_spec equipment rack_size_u min_vent_spacing top_buffer_u bottom_buffer_u
  rw [h3]
  have hall : ((sortByWeightDesc equipment).filter fun i => i.is_equipment)
      = sortByWeightDesc equipment := by
    rw [List.filter_eq_self]
    intro x hx
    have hx' := hequip x ((sortByWeightDesc_perm equipment).mem_iff.mp hx)
    simp [RackItem.is_equipment, hx']
  rw [hall]
  exact (sortByWeightDesc_perm equipment).map clearPosition

def c9winput : List RackItem := [mkEquip "a" 1 4, mkEquip "b" 2 9]

theorem c9_amended_mutates_only_position_witness :
    (∀ e ∈ c9winput, e.item_type = RackItemType.EQUIPMENT) ∧
    (((arrange_rack c9winput 20 8 1 1).items.filter fun i => i.is_equipment).map
        clearPosition).Perm (c9winput.map clearPosition) :=
  ⟨by decide, c9_amended_mutates_only_position c9winput 20 8 1 1 (by decide)⟩

/-! ## C10 — the sparse strategy fills to the top -/

/-- C10: every non-empty equipment list dispatched to the sparse strategy
(`fill_ratio < 0.5`, expressed exactly as `2 * total < available`) produces a
layout that occupies the rack to its topmost unit: the final
`while current_position <= rack_size_u` blank fill drives the cursor past
`rack_size_u`, so `total_used_u ≥ rack_size_u - bottom_buffer_u`, i.e.
`remaining_u` (freeUnits) never exceeds `bottom_buffer_u`. -/
theorem c10_sparse_fills_to_top (equipment : List RackItem)
    (rack_size_u min_vent_spacing top_buffer_u bottom_buffer_u : Int)
    (hne : equipment ≠ [])
    (hunits : ∀ e ∈ equipment, 1 ≤ e.rack_units)
    (hsp : 2 * totalUnits equipment < rack_size_u - top_buffer_u - bottom_buffer_u) :
    rack_size_u - bottom_buffer_u
      ≤ (arrange_rack equipment rack_size_u min_vent_spacing top_buffer_u
          bottom_buffer_u).total_used_u := by
  have hlen : (1 : Int) ≤ equipment.length := by
    have := List.length_pos.mpr hne
    omega
  have hT1 : (1 : Int) ≤ totalUnits equipment :=
    le_trans hlen (totalUnits_length_le hunits)
  rw [arrange_rack_eq_sparse equipment rack_size_u min_vent_spacing top_buffer_u bottom_buffer_u
    hne (by omega) hsp]
  show rack_size_u - bottom_buffer_u ≤ totalUnits (arrange_sparse_rack
    (sortByWeightDesc equipment)
    (rack_size_u - top_buffer_u - bottom_buffer_u - totalUnits equipment)
    bottom_buffer_u rack_size_u (rack_size_u - top_buffer_u - bottom_buffer_u))
  obtain ⟨_, _, _, s4⟩ := arrange_sparse_rack_spec (sortByWeightDesc equipment)
    (rack_size_u - top_buffer_u - bottom_buffer_u - totalUnits equipment)
    bottom_buffer_u rack_size_u (rack_size_u - top_buffer_u - bottom_buffer_u)
  have hsne : sortByWeightDesc equipment ≠ [] := by
    intro h
    apply hne
    have hl := (sortByWeightDesc_perm equipment).length_eq
    rw [h] at hl
    exact List.length_eq_zero.mp hl.symm
  have := s4 hsne
  omega

def c10input : List RackItem := [mkEquip "a" 1 3, mkEquip "b" 1 2, mkEquip "c" 1 1]

theorem c10_sparse_fills_to_top_witness :
    c10input ≠ [] ∧ (∀ e ∈ c10input, 1 ≤ e.rack_units) ∧
    (2 * totalUnits c10input < 20 - 1 - 1) ∧
    (20 - 1 : Int) ≤ (arrange_rack c10input 20 8 1 1).total_used_u :=
  ⟨by decide, by decide, by decide,
    c10_sparse_fills_to_top c10input 20 8 1 1 (by decide) (by decide) (by decide)⟩
